import Mathlib

set_option maxHeartbeats 1000000

namespace AcceptEvm

/-! Shallow embedding of the acceptevm payment-gateway core: the typed store
over the sled engine (src/db/mod.rs and src/common/dbs/interface.rs), its
error enumeration (src/common/mod.rs), and the reconciliation loop
(src/poller/mod.rs). -/

/-- Error enumeration of the typed store, transcribed from the Rust enum
DatabaseError in src/common/mod.rs, with its seven variants in source
order. -/
inductive DatabaseError where
  | NotFound
  | Get
  | Set
  | Communicate
  | Deserialize
  | Serialize
  | NoDelete
deriving DecidableEq

/-- Error type of the get operations in src/common/dbs/interface.rs. The
enum declaration lives in the errors module of that crate, which is not
among the provided files; the constructors are exactly those used in
interface.rs. -/
inductive GetError where
  | NotFound
  | Deserialize
  | Database
deriving DecidableEq

/-- Error type of the set operation in src/common/dbs/interface.rs, with the
constructors used there. -/
inductive SetError where
  | Serialize
  | Database
deriving DecidableEq

/-- Error type of the delete operation in src/common/dbs/interface.rs, with
the constructors used there. -/
inductive DeleteError where
  | NotFound
  | NoDelete
deriving DecidableEq

/-- The name each DatabaseError variant carries in the Rust source
(src/common/mod.rs). -/
def DatabaseError.rustName : DatabaseError → String
  | .NotFound => "NotFound"
  | .Get => "Get"
  | .Set => "Set"
  | .Communicate => "Communicate"
  | .Deserialize => "Deserialize"
  | .Serialize => "Serialize"
  | .NoDelete => "NoDelete"

/-- Byte strings handled by the sled engine, modelled as lists of
naturals. -/
abbrev Bytes := List Nat

/-- In-memory model of a sled Tree: an association list from string keys to
byte values. Every key written through the typed-store API is a Rust str,
so the map is keyed by String; the engine keeps at most one value per
key. -/
abbrev Store := List (String × Bytes)

/-- Lookup in an association list, first binding wins, mirroring a
single-key engine get. -/
def findVal {α : Type} : List (String × α) → String → Option α
  | [], _ => none
  | p :: rest, k => if p.1 = k then some p.2 else findVal rest k

/-- Removal of a key from an association list, mirroring the engine
remove. -/
def eraseKey {α : Type} : List (String × α) → String → List (String × α)
  | [], _ => []
  | p :: rest, k => if p.1 = k then eraseKey rest k else p :: eraseKey rest k

/-- Overwriting insertion, mirroring the engine insert. -/
def insertPair {α : Type} (l : List (String × α)) (k : String) (v : α) :
    List (String × α) :=
  (k, v) :: eraseKey l k

/-- get_from_tree, whose body is identical in src/db/mod.rs and
src/common/dbs/interface.rs: an engine fault reports Get, a missing key
reports NotFound, otherwise the stored bytes are returned. -/
def get_from_tree (fault : Bool) (t : Store) (k : String) :
    Except DatabaseError Bytes :=
  if fault then .error .Get
  else
    match findVal t k with
    | some v => .ok v
    | none => .error .NotFound

/-- set_to_tree, identical in both files: an engine fault reports Set,
otherwise the binding is overwritten. -/
def set_to_tree (fault : Bool) (t : Store) (k : String) (bin : Bytes) :
    Except DatabaseError Unit × Store :=
  if fault then (.error .Set, t) else (.ok (), insertPair t k bin)

/-- get_all_from_tree, identical in both files: a fold over the engine
iterator collecting binary pairs, where the first faulted element aborts
the whole call with Get. Each list element models one step of the sled
iterator. -/
def get_all_from_tree : List (Except Unit (Bytes × Bytes)) →
    Except DatabaseError (List (Bytes × Bytes))
  | [] => .ok []
  | .error _ :: _ => .error .Get
  | .ok p :: rest =>
    match get_all_from_tree rest with
    | .ok l => .ok (p :: l)
    | .error e => .error e

/-- get of src/db/mod.rs: engine errors are propagated unchanged, a value
that fails from_bin reports Deserialize. -/
def dbGet {V : Type} (fromBin : Bytes → Except Unit V) (fault : Bool)
    (t : Store) (k : String) : Except DatabaseError V :=
  match get_from_tree fault t k with
  | .error e => .error e
  | .ok bin =>
    match fromBin bin with
    | .ok v => .ok v
    | .error _ => .error .Deserialize

/-- The decoding loop of get_all in src/db/mod.rs: each binary pair has its
key decoded to a string and its value deserialized, and the first failure
of either kind aborts the whole call with Deserialize. -/
def decodeEntries {V : Type} (decodeKey : Bytes → Except Unit String)
    (fromBin : Bytes → Except Unit V) :
    List (Bytes × Bytes) → Except DatabaseError (List (String × V))
  | [] => .ok []
  | (bk, bv) :: rest =>
    match decodeKey bk with
    | .error _ => .error .Deserialize
    | .ok k =>
      match fromBin bv with
      | .error _ => .error .Deserialize
      | .ok v =>
        match decodeEntries decodeKey fromBin rest with
        | .ok l => .ok ((k, v) :: l)
        | .error e => .error e

/-- get_all of src/db/mod.rs: read all binary pairs, then decode them,
propagating engine errors unchanged. -/
def dbGetAll {V : Type} (decodeKey : Bytes → Except Unit String)
    (fromBin : Bytes → Except Unit V)
    (iter : List (Except Unit (Bytes × Bytes))) :
    Except DatabaseError (List (String × V)) :=
  match get_all_from_tree iter with
  | .error e => .error e
  | .ok bd => decodeEntries decodeKey fromBin bd

/-- set of src/db/mod.rs: serialize (reporting Serialize on failure), then
write, mapping any write failure to Communicate. -/
def dbSet {V : Type} (toBin : V → Except Unit Bytes) (fault : Bool)
    (t : Store) (k : String) (v : V) : Except DatabaseError Unit × Store :=
  match toBin v with
  | .error _ => (.error .Serialize, t)
  | .ok bin =>
    match set_to_tree fault t k bin with
    | (.ok _, t2) => (.ok (), t2)
    | (.error _, t2) => (.error .Communicate, t2)

/-- delete of src/db/mod.rs: a faulted engine remove reports NoDelete, a
remove that finds nothing reports NotFound, otherwise the entry is
removed. -/
def dbDelete (fault : Bool) (t : Store) (k : String) :
    Except DatabaseError Unit × Store :=
  if fault then (.error .NoDelete, t)
  else
    match findVal t k with
    | some _ => (.ok (), eraseKey t k)
    | none => (.error .NotFound, t)

/-- get of src/common/dbs/interface.rs: same engine access as dbGet, with
NotFound kept, any other engine error renamed to Database, and a from_bin
failure reported as Deserialize. -/
def ifaceGet {V : Type} (fromBin : Bytes → Except Unit V) (fault : Bool)
    (t : Store) (k : String) : Except GetError V :=
  match get_from_tree fault t k with
  | .ok bin =>
    match fromBin bin with
    | .ok v => .ok v
    | .error _ => .error GetError.Deserialize
  | .error e =>
    match e with
    | .NotFound => .error GetError.NotFound
    | _ => .error GetError.Database

/-- The decoding loop of get_all in src/common/dbs/interface.rs, reporting
GetError.Deserialize on the first failing entry. -/
def ifaceDecodeEntries {V : Type} (decodeKey : Bytes → Except Unit String)
    (fromBin : Bytes → Except Unit V) :
    List (Bytes × Bytes) → Except GetError (List (String × V))
  | [] => .ok []
  | (bk, bv) :: rest =>
    match decodeKey bk with
    | .error _ => .error GetError.Deserialize
    | .ok k =>
      match fromBin bv with
      | .error _ => .error GetError.Deserialize
      | .ok v =>
        match ifaceDecodeEntries decodeKey fromBin rest with
        | .ok l => .ok ((k, v) :: l)
        | .error e => .error e

/-- get_all of src/common/dbs/interface.rs: on an engine error NotFound
becomes GetError.NotFound and anything else GetError.Database. -/
def ifaceGetAll {V : Type} (decodeKey : Bytes → Except Unit String)
    (fromBin : Bytes → Except Unit V)
    (iter : List (Except Unit (Bytes × Bytes))) :
    Except GetError (List (String × V)) :=
  match get_all_from_tree iter with
  | .ok bd => ifaceDecodeEntries decodeKey fromBin bd
  | .error e =>
    match e with
    | .NotFound => .error GetError.NotFound
    | _ => .error GetError.Database

/-- set of src/common/dbs/interface.rs: Serialize on a serializer failure,
Database on an engine failure. -/
def ifaceSet {V : Type} (toBin : V → Except Unit Bytes) (fault : Bool)
    (t : Store) (k : String) (v : V) : Except SetError Unit × Store :=
  match toBin v with
  | .error _ => (.error SetError.Serialize, t)
  | .ok bin =>
    match set_to_tree fault t k bin with
    | (.ok _, t2) => (.ok (), t2)
    | (.error _, t2) => (.error SetError.Database, t2)

/-- delete of src/common/dbs/interface.rs: same body as dbDelete with the
DeleteError constructors. -/
def ifaceDelete (fault : Bool) (t : Store) (k : String) :
    Except DeleteError Unit × Store :=
  if fault then (.error DeleteError.NoDelete, t)
  else
    match findVal t k with
    | some _ => (.ok (), eraseKey t k)
    | none => (.error DeleteError.NotFound, t)

/-- The constructor renaming between the two get error types. -/
def mapGetError : GetError → DatabaseError
  | .NotFound => .NotFound
  | .Deserialize => .Deserialize
  | .Database => .Get

/-- The constructor renaming between the two set error types. -/
def mapSetError : SetError → DatabaseError
  | .Serialize => .Serialize
  | .Database => .Communicate

/-- The constructor renaming between the two delete error types. -/
def mapDeleteError : DeleteError → DatabaseError
  | .NotFound => .NotFound
  | .NoDelete => .NoDelete

/-- Renaming of the error component of an Except value. -/
def exMapErr {e1 e2 α : Type} (f : e1 → e2) : Except e1 α → Except e2 α
  | .ok a => .ok a
  | .error e => .error (f e)

/-! The reconciliation loop of src/poller/mod.rs. -/

/-- Modelled from the spec: the payment-method field of an Invoice, holding
the optional token-contract address (absent means native currency); the
Invoice struct lives in the types module, which is not among the provided
files. -/
structure PaymentMethod where
  token_address : Option String
deriving DecidableEq

/-- Modelled from the spec: the Invoice record of section 3. Only the
fields consulted by the reconciliation loop appear: recipient address,
amount and the payment method; the creation timestamp is never read by the
loop and is omitted. Amounts and balances are U256 values, represented as
naturals. -/
structure Invoice where
  «to» : String
  amount : Nat
  method : PaymentMethod
deriving DecidableEq

/-- Hex-digit test used by address parsing. -/
def isHexChar (c : Char) : Bool :=
  (('0' ≤ c) && (c ≤ '9')) || (('a' ≤ c) && (c ≤ 'f')) || (('A' ≤ c) && (c ≤ 'F'))

/-- Address parsing performed by the parse call in get_native_balance: the
H160 string form, an optional 0x prefix followed by exactly 40 hex digits,
modelled after the FromStr implementation of the address type used by the
web3 crate as exercised by the valid_balance test of the repository. -/
def parseAddress (s : String) : Option (List Char) :=
  let cs := s.data
  let body := if cs.take 2 = ['0', 'x'] then cs.drop 2 else cs
  if body.length == 40 && body.all isHexChar then some body else none

/-- Outcome of a balance query made by the poller: the unwrap in
get_native_balance panics on an address string that does not parse,
otherwise the chain call either fails or yields a value. -/
inductive POut (α : Type) where
  | panicked
  | failed
  | got (a : α)
deriving DecidableEq

/-- External capabilities consumed by one reconciliation cycle: the native
balance query taking an already parsed address, the token balance query
(modelled from the spec: query of a recipient on a token contract
returning a balance or a transport or contract error, since the ERC20
client is not among the provided files), and a per-key engine fault flag
for the repository delete. -/
structure Env where
  native : List Char → Except Unit Nat
  token : String → String → Except Unit Nat
  deleteErr : String → Bool

/-- get_native_balance of src/poller/mod.rs: parse the address, unwrapping
the result, then query the chain. -/
def get_native_balance (native : List Char → Except Unit Nat)
    (address : String) : POut Nat :=
  match parseAddress address with
  | none => .panicked
  | some a =>
    match native a with
    | .ok n => .got n
    | .error _ => .failed

/-- check_if_native_received of src/poller/mod.rs: true exactly when the
queried native balance of the recipient is at least the invoice amount. -/
def check_if_native_received (native : List Char → Except Unit Nat)
    (invoice : Invoice) : POut Bool :=
  match get_native_balance native invoice.«to» with
  | .panicked => .panicked
  | .failed => .failed
  | .got b => if invoice.amount ≤ b then .got true else .got false

/-- check_if_token_received of src/poller/mod.rs, applied to the result of
the token balance call: true exactly when the token balance of the
recipient is at least the invoice amount. -/
def check_if_token_received (balanceOf : Except Unit Nat)
    (invoice : Invoice) : Except Unit Bool :=
  match balanceOf with
  | .error e => .error e
  | .ok b => if invoice.amount ≤ b then .ok true else .ok false

/-- Result of check_and_process: either the task panicked, or the invoice
was deemed settled or not. -/
inductive CheckResult where
  | panicked
  | settled (b : Bool)
deriving DecidableEq

/-- check_and_process of src/poller/mod.rs: select the token balance when a
token-contract address is set and the native balance otherwise; a failed
balance query is logged and reported as not settled. -/
def check_and_process (env : Env) (invoice : Invoice) : CheckResult :=
  match invoice.method.token_address with
  | some address =>
    match check_if_token_received (env.token address invoice.«to») invoice with
    | .ok result => .settled result
    | .error _ => .settled false
  | none =>
    match check_if_native_received env.native invoice with
    | .panicked => .panicked
    | .failed => .settled false
    | .got result => .settled result

/-- The invoice repository: the typed store specialized to Invoice
values. -/
abbrev Repo := List (String × Invoice)

/-- Observable actions of one reconciliation cycle: a successful repository
delete, a failed repository delete, and a callback-sink invocation. -/
inductive Event where
  | deleteOk (key : String)
  | deleteFail (key : String)
  | callback (key : String) (invoice : Invoice)
deriving DecidableEq

/-- One iteration of the inner for loop of poll_payments: check the
invoice; on a settled result attempt the repository delete, invoking the
callback only after the delete returned success and logging otherwise.
The Bool records whether the task panicked. -/
def runEntry (env : Env) (repo : Repo) (entry : String × Invoice) :
    Repo × List Event × Bool :=
  match check_and_process env entry.2 with
  | .panicked => (repo, [], true)
  | .settled false => (repo, [], false)
  | .settled true =>
    if env.deleteErr entry.1 then (repo, [.deleteFail entry.1], false)
    else
      match findVal repo entry.1 with
      | some _ =>
        (eraseKey repo entry.1,
          [.deleteOk entry.1, .callback entry.1 entry.2], false)
      | none => (repo, [.deleteFail entry.1], false)

/-- The inner for loop of poll_payments over the snapshot entries, threading
the repository state; a panic aborts the task, leaving the remaining
entries unprocessed. -/
def runEntries (env : Env) : Repo → List (String × Invoice) →
    Repo × List Event × Bool
  | repo, [] => (repo, [], false)
  | repo, e :: rest =>
    match runEntry env repo e with
    | (r1, evs1, true) => (r1, evs1, true)
    | (r1, evs1, false) =>
      match runEntries env r1 rest with
      | (r2, evs2, p) => (r2, evs1 ++ evs2, p)

/-- One cycle of poll_payments: on a successful get_all process every
snapshot entry in order; on a failed get_all log and process nothing,
leaving the repository untouched until the next cycle. -/
def runCycle (env : Env) (snapshot : Except DatabaseError Repo)
    (repo : Repo) : Repo × List Event × Bool :=
  match snapshot with
  | .ok entries => runEntries env repo entries
  | .error _ => (repo, [], false)

/-- Whether an event is a callback-sink invocation for the given key. -/
def isCB (k : String) : Event → Bool
  | .callback q _ => q == k
  | _ => false

/-- Number of callback-sink invocations for the given key in an event
trace. -/
def countCB (k : String) (evs : List Event) : Nat := evs.countP (isCB k)

/-- Every callback for the key is strictly preceded by a successful delete
of that key; the flag records whether such a delete has been seen. -/
def callbacksGuarded (k : String) : Bool → List Event → Bool
  | _, [] => true
  | seen, .deleteOk q :: rest => callbacksGuarded k (seen || (q == k)) rest
  | seen, .deleteFail _ :: rest => callbacksGuarded k seen rest
  | seen, .callback q _ :: rest =>
    if q == k && !seen then false else callbacksGuarded k seen rest

/-- The balance query for the invoice fails: the token call errors when a
token contract is set, otherwise the native call errors on a recipient
that does parse. -/
def oracleFails (env : Env) (invoice : Invoice) : Prop :=
  match invoice.method.token_address with
  | some address => env.token address invoice.«to» = .error ()
  | none => ∃ a, parseAddress invoice.«to» = some a ∧ env.native a = .error ()

/-- Success test on an Except value. -/
def isOkE {e1 α : Type} : Except e1 α → Bool
  | .ok _ => true
  | .error _ => false

/-! Concrete fixtures used by the witnesses. -/

/-- A well-formed recipient address: 0x followed by forty hex digits. -/
def goodAddr : String := "0xaaaaaaaaaaaaaaaaaaaaaaaaaaaaaaaaaaaaaaaa"

/-- Environment whose balance queries always report 150 and whose engine
never faults. -/
def envRich : Env :=
  { native := fun _ => .ok 150, token := fun _ _ => .ok 150,
    deleteErr := fun _ => false }

/-- Environment whose balance queries always fail. -/
def envOracleDown : Env :=
  { native := fun _ => .error (), token := fun _ _ => .error (),
    deleteErr := fun _ => false }

/-- A native-currency invoice over a well-formed recipient. -/
def invNative : Invoice :=
  { «to» := goodAddr, amount := 100, method := { token_address := none } }

/-- A token invoice over a well-formed recipient. -/
def invToken : Invoice :=
  { «to» := goodAddr, amount := 100,
    method := { token_address := some "0xT" } }

/-- A native-currency invoice whose recipient does not parse as an
address. -/
def invBad : Invoice :=
  { «to» := "not-an-address", amount := 1,
    method := { token_address := none } }

/-! Helper lemmas about the association-list model. -/

theorem findVal_eraseKey {α : Type} (l : List (String × α)) (k q : String) :
    findVal (eraseKey l k) q = if q = k then none else findVal l q := by
  induction l with
  | nil => simp [eraseKey, findVal]
  | cons p rest ih =>
    by_cases hp : p.1 = k
    · rw [eraseKey, if_pos hp, ih]
      by_cases hq : q = k
      · simp [hq]
      · have hpq : p.1 ≠ q := by
          rw [hp]; exact fun h => hq h.symm
        simp [hq, findVal, hpq]
    · rw [eraseKey, if_neg hp]
      by_cases hpq : p.1 = q
      · have hq : q ≠ k := by
          rw [← hpq]; exact hp
        simp [findVal, hpq, hq]
      · simp [findVal, hpq, ih]

theorem findVal_insertPair {α : Type} (l : List (String × α)) (k : String)
    (v : α) : findVal (insertPair l k v) k = some v := by
  simp [insertPair, findVal]

/-- Claim C5: a failed full-snapshot read makes the cycle process nothing:
no invoice checked, no delete, no callback, the repository unchanged and
the task alive, so the loop proceeds to the sleep and retries the full
read in the next cycle. -/
theorem C5_get_all_failure_skips_cycle (env : Env) (e : DatabaseError)
    (repo : Repo) : runCycle env (.error e) repo = (repo, [], false) := rfl

/-- Claim C7: with the engine healthy, delete succeeds exactly on a present
key and removes that entry while leaving every other key untouched, and on
an absent key it fails with NotFound leaving the store unchanged. -/
theorem C7_delete_semantics (t : Store) (k : String) :
    (∀ v, findVal t k = some v →
      (dbDelete false t k).1 = .ok () ∧
      findVal (dbDelete false t k).2 k = none ∧
      ∀ q, q ≠ k → findVal (dbDelete false t k).2 q = findVal t q) ∧
    (findVal t k = none →
      dbDelete false t k = (.error DatabaseError.NotFound, t)) := by
  constructor
  · intro v hv
    refine ⟨?_, ?_, ?_⟩
    · simp [dbDelete, hv]
    · simp [dbDelete, hv, findVal_eraseKey]
    · intro q hq
      simp [dbDelete, hv, findVal_eraseKey, hq]
  · intro hv
    simp [dbDelete, hv]

/-- Witness for C7 at a concrete store: deleting a present key succeeds and
removes it, deleting it again fails with NotFound. -/
theorem C7_delete_semantics_witness :
    (dbDelete false [("inv1", [1, 2])] "inv1").1 = .ok () ∧
    findVal (dbDelete false [("inv1", [1, 2])] "inv1").2 "inv1" = none ∧
    dbDelete false [] "inv1" = (.error DatabaseError.NotFound, []) := by
  refine ⟨?_, ?_, ?_⟩
  · exact ((C7_delete_semantics [("inv1", [1, 2])] "inv1").1 [1, 2] rfl).1
  · exact ((C7_delete_semantics [("inv1", [1, 2])] "inv1").1 [1, 2] rfl).2.1
  · exact (C7_delete_semantics [] "inv1").2 rfl

/-- Claim C8: for a value satisfying the round-trip contract, setting it
twice in succession succeeds both times and a subsequent get returns the
value: set overwrites and repeated set is idempotent in the observed
value. -/
theorem C8_set_idempotent {V : Type} (toBin : V → Except Unit Bytes)
    (fromBin : Bytes → Except Unit V) (t : Store) (k : String) (v : V)
    (bin : Bytes) (hser : toBin v = .ok bin) (hrt : fromBin bin = .ok v) :
    (dbSet toBin false t k v).1 = .ok () ∧
    (dbSet toBin false (dbSet toBin false t k v).2 k v).1 = .ok () ∧
    dbGet fromBin false
      (dbSet toBin false (dbSet toBin false t k v).2 k v).2 k = .ok v := by
  refine ⟨?_, ?_, ?_⟩
  · simp [dbSet, hser, set_to_tree]
  · simp [dbSet, hser, set_to_tree]
  · simp [dbSet, hser, set_to_tree, dbGet, get_from_tree,
      findVal_insertPair, hrt]

/-- Witness for C8 with the identity-like codec on a concrete store. -/
theorem C8_set_idempotent_witness :
    (dbSet (fun n : Nat => .ok [n]) false [("x", [9])] "x" 5).1 = .ok () ∧
    (dbSet (fun n : Nat => .ok [n]) false
      (dbSet (fun n : Nat => .ok [n]) false [("x", [9])] "x" 5).2 "x" 5).1 =
      .ok () ∧
    dbGet (fun b : Bytes => match b with | [n] => .ok n | _ => .error ())
      false
      (dbSet (fun n : Nat => .ok [n]) false
        (dbSet (fun n : Nat => .ok [n]) false [("x", [9])] "x" 5).2 "x"
          5).2 "x" = .ok 5 :=
  C8_set_idempotent (fun n : Nat => .ok [n])
    (fun b : Bytes => match b with | [n] => .ok n | _ => .error ())
    [("x", [9])] "x" 5 [5] rfl rfl

/-- Counterexample to claim C9: the typed-store error enum does not consist
of the variants named in the claim. A failed delete at a concrete store
reports the variant whose source name is NoDelete, and that name is not
among the seven names the claim lists (which include Delete). -/
theorem C9_counterexample :
    (dbDelete true [("k", [1])] "k").1 = .error DatabaseError.NoDelete ∧
    DatabaseError.rustName DatabaseError.NoDelete ∉
      ["NotFound", "Get", "Set", "Delete", "Serialize", "Deserialize",
        "Communicate"] := by
  constructor
  · rfl
  · decide

/-- Claim C9 as amended: the error enum consists of exactly the seven
variants NotFound, Get, Set, Communicate, Deserialize, Serialize and
NoDelete; a failed delete reports NoDelete on an engine error and NotFound
on an absent key, and no other variant. -/
theorem C9_error_taxonomy :
    (∀ e : DatabaseError,
      e ∈ [DatabaseError.NotFound, DatabaseError.Get, DatabaseError.Set,
        DatabaseError.Communicate, DatabaseError.Deserialize,
        DatabaseError.Serialize, DatabaseError.NoDelete]) ∧
    (∀ t k, dbDelete true t k = (.error DatabaseError.NoDelete, t)) ∧
    (∀ t k, findVal t k = none →
      (dbDelete false t k).1 = .error DatabaseError.NotFound) ∧
    (∀ t k, (dbDelete false t k).1 = .ok () ∨
      (dbDelete false t k).1 = .error DatabaseError.NotFound) := by
  refine ⟨?_, ?_, ?_, ?_⟩
  · intro e; cases e <;> simp
  · intro t k; rfl
  · intro t k h; simp [dbDelete, h]
  · intro t k
    cases hv : findVal t k with
    | none => right; simp [dbDelete, hv]
    | some v => left; simp [dbDelete, hv]

/-- Witness for C9 as amended, at a concrete empty store. -/
theorem C9_error_taxonomy_witness :
    (dbDelete false [] "k").1 = .error DatabaseError.NotFound :=
  C9_error_taxonomy.2.2.1 [] "k" rfl

theorem decodeEntries_abort {V : Type} (decodeKey : Bytes → Except Unit String)
    (fromBin : Bytes → Except Unit V) :
    ∀ bd : List (Bytes × Bytes),
      (∃ p ∈ bd, isOkE (decodeKey p.1) = false ∨ isOkE (fromBin p.2) = false) →
      decodeEntries decodeKey fromBin bd = .error DatabaseError.Deserialize ∧
      ifaceDecodeEntries decodeKey fromBin bd =
        .error GetError.Deserialize := by
  intro bd
  induction bd with
  | nil => intro h; simp at h
  | cons q rest ih =>
    intro h
    obtain ⟨bk, bv⟩ := q
    cases hdk : decodeKey bk with
    | error e =>
      exact ⟨by simp [decodeEntries, hdk], by simp [ifaceDecodeEntries, hdk]⟩
    | ok k =>
      cases hfb : fromBin bv with
      | error e =>
        exact ⟨by simp [decodeEntries, hdk, hfb],
          by simp [ifaceDecodeEntries, hdk, hfb]⟩
      | ok v =>
        obtain ⟨p, hmem, hor⟩ := h
        rcases List.mem_cons.mp hmem with hpq | hprest
        · subst hpq
          rcases hor with h1 | h2
          · rw [hdk] at h1; simp [isOkE] at h1
          · rw [hfb] at h2; simp [isOkE] at h2
        · have hres := ih ⟨p, hprest, hor⟩
          exact ⟨by simp [decodeEntries, hdk, hfb, hres.1],
            by simp [ifaceDecodeEntries, hdk, hfb, hres.2]⟩

/-- Claim C6: when the engine scan succeeds but the decoding of at least
one entry fails — the key to UTF-8 or the value through from_bin — the
whole get_all call returns a Deserialize error and no entries at all,
in both implementations. -/
theorem C6_corrupt_entry_aborts_get_all {V : Type}
    (decodeKey : Bytes → Except Unit String) (fromBin : Bytes → Except Unit V)
    (iter : List (Except Unit (Bytes × Bytes))) (bd : List (Bytes × Bytes))
    (hiter : get_all_from_tree iter = .ok bd)
    (hbad : ∃ p ∈ bd,
      isOkE (decodeKey p.1) = false ∨ isOkE (fromBin p.2) = false) :
    dbGetAll decodeKey fromBin iter = .error DatabaseError.Deserialize ∧
    ifaceGetAll decodeKey fromBin iter = .error GetError.Deserialize := by
  have h := decodeEntries_abort decodeKey fromBin bd hbad
  constructor
  · simp only [dbGetAll, hiter]; exact h.1
  · simp only [ifaceGetAll, hiter]; exact h.2

/-- Witness for C6: a one-entry store whose key fails to decode makes both
get_all calls return a Deserialize error. -/
theorem C6_corrupt_entry_aborts_get_all_witness :
    dbGetAll (fun _ => .error ()) (fun _ => .ok 0) [.ok ([0], [1])] =
      .error DatabaseError.Deserialize ∧
    ifaceGetAll (fun _ => .error ()) (fun _ => .ok 0) [.ok ([0], [1])] =
      .error GetError.Deserialize :=
  C6_corrupt_entry_aborts_get_all (fun _ => .error ()) (fun _ => .ok 0)
    [.ok ([0], [1])] [([0], [1])] rfl
    ⟨([0], [1]), by simp, Or.inl rfl⟩

theorem get_all_from_tree_error :
    ∀ (iter : List (Except Unit (Bytes × Bytes))) (e : DatabaseError),
      get_all_from_tree iter = .error e → e = DatabaseError.Get := by
  intro iter
  induction iter with
  | nil => intro e h; simp [get_all_from_tree] at h
  | cons x rest ih =>
    intro e h
    cases x with
    | error u =>
      rw [get_all_from_tree] at h
      exact (Except.error.inj h).symm
    | ok p =>
      rw [get_all_from_tree] at h
      cases hr : get_all_from_tree rest with
      | ok l => rw [hr] at h; simp at h
      | error e2 =>
        rw [hr] at h
        have he : e2 = e := Except.error.inj h
        exact he ▸ ih e2 hr

theorem ifaceDecodeEntries_eq {V : Type}
    (decodeKey : Bytes → Except Unit String)
    (fromBin : Bytes → Except Unit V) :
    ∀ bd, exMapErr mapGetError (ifaceDecodeEntries decodeKey fromBin bd) =
      decodeEntries decodeKey fromBin bd := by
  intro bd
  induction bd with
  | nil => rfl
  | cons q rest ih =>
    obtain ⟨bk, bv⟩ := q
    cases hdk : decodeKey bk with
    | error e =>
      simp [decodeEntries, ifaceDecodeEntries, hdk, exMapErr, mapGetError]
    | ok k =>
      cases hfb : fromBin bv with
      | error e =>
        simp [decodeEntries, ifaceDecodeEntries, hdk, hfb, exMapErr,
          mapGetError]
      | ok v =>
        cases hrest : ifaceDecodeEntries decodeKey fromBin rest with
        | ok l =>
          rw [hrest] at ih
          simp only [exMapErr] at ih
          simp [decodeEntries, ifaceDecodeEntries, hdk, hfb, hrest, ← ih,
            exMapErr]
        | error e =>
          rw [hrest] at ih
          simp only [exMapErr] at ih
          simp [decodeEntries, ifaceDecodeEntries, hdk, hfb, hrest, ← ih,
            exMapErr]

/-- Claim C10: the typed-store operations of src/common/dbs/interface.rs
and of src/db/mod.rs agree on every tree state, key and value: same
successful results, failure under the same engine conditions, and error
values related by the fixed constructor renaming mapGetError, mapSetError
and mapDeleteError. -/
theorem C10_two_implementations_agree :
    (∀ (V : Type) (fromBin : Bytes → Except Unit V) (fault : Bool)
      (t : Store) (k : String),
      exMapErr mapGetError (ifaceGet fromBin fault t k) =
        dbGet fromBin fault t k) ∧
    (∀ (V : Type) (decodeKey : Bytes → Except Unit String)
      (fromBin : Bytes → Except Unit V)
      (iter : List (Except Unit (Bytes × Bytes))),
      exMapErr mapGetError (ifaceGetAll decodeKey fromBin iter) =
        dbGetAll decodeKey fromBin iter) ∧
    (∀ (V : Type) (toBin : V → Except Unit Bytes) (fault : Bool)
      (t : Store) (k : String) (v : V),
      (exMapErr mapSetError (ifaceSet toBin fault t k v).1,
        (ifaceSet toBin fault t k v).2) = dbSet toBin fault t k v) ∧
    (∀ (fault : Bool) (t : Store) (k : String),
      (exMapErr mapDeleteError (ifaceDelete fault t k).1,
        (ifaceDelete fault t k).2) = dbDelete fault t k) := by
  refine ⟨?_, ?_, ?_, ?_⟩
  · intro V fromBin fault t k
    cases fault with
    | true => rfl
    | false =>
      cases hv : findVal t k with
      | none => simp [ifaceGet, dbGet, get_from_tree, hv, exMapErr, mapGetError]
      | some bin =>
        cases hfb : fromBin bin with
        | ok v => simp [ifaceGet, dbGet, get_from_tree, hv, hfb, exMapErr]
        | error e =>
          simp [ifaceGet, dbGet, get_from_tree, hv, hfb, exMapErr, mapGetError]
  · intro V decodeKey fromBin iter
    cases hi : get_all_from_tree iter with
    | ok bd => simp [ifaceGetAll, dbGetAll, hi, ifaceDecodeEntries_eq]
    | error e =>
      have he : e = DatabaseError.Get := get_all_from_tree_error iter e hi
      subst he
      simp [ifaceGetAll, dbGetAll, hi, exMapErr, mapGetError]
  · intro V toBin fault t k v
    cases hs : toBin v with
    | error e => simp [ifaceSet, dbSet, hs, exMapErr, mapSetError]
    | ok bin =>
      cases fault with
      | true => simp [ifaceSet, dbSet, hs, set_to_tree, exMapErr, mapSetError]
      | false => simp [ifaceSet, dbSet, hs, set_to_tree, exMapErr]
  · intro fault t k
    cases fault with
    | true => rfl
    | false =>
      cases hv : findVal t k with
      | none => simp [ifaceDelete, dbDelete, hv, exMapErr, mapDeleteError]
      | some _ => simp [ifaceDelete, dbDelete, hv, exMapErr]

/-- Claim C2: an invoice is deemed settled exactly when the queried balance
of the recipient is at least the invoice amount (closed lower bound,
unsigned comparison), and the balance queried is the token balance when a
token-contract address is set and the native balance otherwise. -/
theorem C2_settlement_condition (env : Env) (invoice : Invoice) :
    (∀ a b, invoice.method.token_address = some a →
      env.token a invoice.«to» = .ok b →
      check_and_process env invoice =
        .settled (decide (invoice.amount ≤ b))) ∧
    (∀ a b, invoice.method.token_address = none →
      parseAddress invoice.«to» = some a → env.native a = .ok b →
      check_and_process env invoice =
        .settled (decide (invoice.amount ≤ b))) := by
  constructor
  · intro a b ha hb
    by_cases hle : invoice.amount ≤ b <;>
      simp [check_and_process, ha, check_if_token_received, hb, hle]
  · intro a b ha hp hb
    by_cases hle : invoice.amount ≤ b <;>
      simp [check_and_process, ha, check_if_native_received,
        get_native_balance, hp, hb, hle]

/-- Witness for C2: a funded token invoice is settled, an underfunded
native invoice is not. -/
theorem C2_settlement_condition_witness :
    check_and_process envRich invToken = .settled (decide (100 ≤ 150)) ∧
    check_and_process
      { native := fun _ => .ok 50, token := fun _ _ => .ok 50,
        deleteErr := fun _ => false } invNative =
      .settled (decide (100 ≤ 50)) := by
  constructor
  · exact (C2_settlement_condition envRich invToken).1 "0xT" 150 rfl rfl
  · exact (C2_settlement_condition _ invNative).2 (goodAddr.data.drop 2) 50
      rfl rfl rfl

/-- Counterexample to claim C3: the balance check is not total in the
invoice. A token-less invoice whose recipient string does not parse as an
address makes get_native_balance panic through its unwrap, and the cycle
task dies with the repository entry still in place. -/
theorem C3_counterexample :
    check_and_process envRich invBad = .panicked ∧
    (runCycle envRich (.ok [("inv3", invBad)]) [("inv3", invBad)]).2.2 =
      true := by
  constructor
  · rfl
  · rfl

/-- Claim C3 as amended: for a token-less invoice the balance check never
panics exactly when the recipient string parses as a chain address; on a
recipient that does not parse, get_native_balance panics and the loop task
does not survive the invoice. -/
theorem C3_native_check_totality (env : Env) (invoice : Invoice)
    (htok : invoice.method.token_address = none) :
    ((parseAddress invoice.«to»).isSome = true →
      ∃ b, check_and_process env invoice = .settled b) ∧
    (parseAddress invoice.«to» = none →
      check_and_process env invoice = .panicked) := by
  constructor
  · intro hp
    cases hpa : parseAddress invoice.«to» with
    | none => rw [hpa] at hp; simp at hp
    | some a =>
      cases hn : env.native a with
      | ok n =>
        by_cases hle : invoice.amount ≤ n
        · exact ⟨true, by simp [check_and_process, htok,
            check_if_native_received, get_native_balance, hpa, hn, hle]⟩
        · exact ⟨false, by simp [check_and_process, htok,
            check_if_native_received, get_native_balance, hpa, hn, hle]⟩
      | error u =>
        exact ⟨false, by simp [check_and_process, htok,
          check_if_native_received, get_native_balance, hpa, hn]⟩
  · intro hpa
    simp [check_and_process, htok, check_if_native_received,
      get_native_balance, hpa]

/-- Witness for C3 as amended: on a parsing recipient the check reaches a
settlement verdict. -/
theorem C3_native_check_totality_witness :
    ∃ b, check_and_process envRich invNative = .settled b :=
  (C3_native_check_totality envRich invNative rfl).1 rfl

theorem runEntries_cons (env : Env) (repo : Repo) (e : String × Invoice)
    (rest : List (String × Invoice)) :
    runEntries env repo (e :: rest) =
      (if (runEntry env repo e).2.2 then runEntry env repo e
       else ((runEntries env (runEntry env repo e).1 rest).1,
         (runEntry env repo e).2.1 ++
           (runEntries env (runEntry env repo e).1 rest).2.1,
         (runEntries env (runEntry env repo e).1 rest).2.2)) := by
  rw [runEntries]
  rcases h1 : runEntry env repo e with ⟨r1, evs1, pf⟩
  cases pf with
  | true => simp
  | false =>
    rcases h2 : runEntries env r1 rest with ⟨r2, evs2, p2⟩
    simp [h2]

theorem check_and_process_oracle_fail (env : Env) (invoice : Invoice)
    (h : oracleFails env invoice) :
    check_and_process env invoice = .settled false := by
  cases htok : invoice.method.token_address with
  | some address =>
    have h2 : env.token address invoice.«to» = .error () := by
      unfold oracleFails at h; rw [htok] at h; exact h
    simp [check_and_process, htok, check_if_token_received, h2]
  | none =>
    have h2 : ∃ a, parseAddress invoice.«to» = some a ∧
        env.native a = .error () := by
      unfold oracleFails at h; rw [htok] at h; exact h
    obtain ⟨a, hpa, hn⟩ := h2
    simp [check_and_process, htok, check_if_native_received,
      get_native_balance, hpa, hn]

/-- Claim C4: an invoice whose balance query fails is treated as unsettled:
processing it changes no state, emits no delete and no callback, does not
end the task, and the cycle behaves as if the entry were skipped, so the
invoice stays in the repository to be re-evaluated next cycle while later
invoices of the same snapshot are still processed. -/
theorem C4_oracle_failure_skips_invoice (env : Env) (k : String)
    (invoice : Invoice) (h : oracleFails env invoice) :
    (∀ repo, runEntry env repo (k, invoice) = (repo, [], false)) ∧
    (∀ repo pre post,
      runEntries env repo (pre ++ (k, invoice) :: post) =
        runEntries env repo (pre ++ post)) := by
  have hc : check_and_process env invoice = .settled false :=
    check_and_process_oracle_fail env invoice h
  have hentry : ∀ repo, runEntry env repo (k, invoice) = (repo, [], false) := by
    intro repo
    simp [runEntry, hc]
  refine ⟨hentry, ?_⟩
  intro repo pre post
  induction pre generalizing repo with
  | nil =>
    simp only [List.nil_append]
    rw [runEntries, hentry repo]
    rcases hr : runEntries env repo post with ⟨r2, evs2, p⟩
    simp [hr]
  | cons e pre ih =>
    simp only [List.cons_append, runEntries_cons]
    rw [ih]

/-- Witness for C4: with the oracle down, a token invoice is left in place
with no events. -/
theorem C4_oracle_failure_skips_invoice_witness :
    runEntry envOracleDown [("i", invToken)] ("i", invToken) =
      ([("i", invToken)], [], false) :=
  (C4_oracle_failure_skips_invoice envOracleDown "i" invToken rfl).1
    [("i", invToken)]

theorem runEntry_spec (env : Env) (repo : Repo) (e : String × Invoice) :
    runEntry env repo e = (repo, [], true) ∨
    runEntry env repo e = (repo, [], false) ∨
    runEntry env repo e = (repo, [Event.deleteFail e.1], false) ∨
    (findVal repo e.1 ≠ none ∧
      runEntry env repo e =
        (eraseKey repo e.1,
          [Event.deleteOk e.1, Event.callback e.1 e.2], false)) := by
  unfold runEntry
  cases hc : check_and_process env e.2 with
  | panicked => exact Or.inl rfl
  | settled b =>
    cases b with
    | false => exact Or.inr (Or.inl rfl)
    | true =>
      by_cases hd : env.deleteErr e.1 = true
      · rw [if_pos hd]
        exact Or.inr (Or.inr (Or.inl rfl))
      · rw [if_neg hd]
        cases hv : findVal repo e.1 with
        | none => exact Or.inr (Or.inr (Or.inl rfl))
        | some v =>
          exact Or.inr (Or.inr (Or.inr ⟨by simp, rfl⟩))

theorem countCB_append (k : String) (a b : List Event) :
    countCB k (a ++ b) = countCB k a + countCB k b := by
  simp [countCB, List.countP_append]

theorem countCB_nil (k : String) : countCB k [] = 0 := rfl

theorem countCB_deleteFail (k q : String) :
    countCB k [Event.deleteFail q] = 0 := by
  simp [countCB, List.countP_cons, List.countP_nil, isCB]

theorem countCB_delete_callback (k q : String) (inv : Invoice) :
    countCB k [Event.deleteOk q, Event.callback q inv] =
      if q = k then 1 else 0 := by
  by_cases hq : q = k <;>
    simp [countCB, List.countP_cons, List.countP_nil, isCB, hq]

theorem countCB_zero_of_absent (env : Env) (k : String) :
    ∀ (l : List (String × Invoice)) (repo : Repo), findVal repo k = none →
      countCB k (runEntries env repo l).2.1 = 0 := by
  intro l
  induction l with
  | nil => intro repo h; simp [runEntries, countCB]
  | cons e rest ih =>
    intro repo h
    rcases runEntry_spec env repo e with hs | hs | hs | ⟨hne, hs⟩
    · simp [runEntries_cons, hs, countCB]
    · simp only [runEntries_cons, hs]
      simp only [Bool.false_eq_true, if_false]
      rw [countCB_append, countCB_nil, ih repo h]
    · simp only [runEntries_cons, hs]
      simp only [Bool.false_eq_true, if_false]
      rw [countCB_append, countCB_deleteFail, ih repo h]
    · have hek : e.1 ≠ k := by
        intro hek
        rw [hek] at hne
        exact hne h
      simp only [runEntries_cons, hs]
      simp only [Bool.false_eq_true, if_false]
      rw [countCB_append, countCB_delete_callback, if_neg hek]
      have habs : findVal (eraseKey repo e.1) k = none := by
        rw [findVal_eraseKey]
        by_cases h2 : k = e.1 <;> simp [h2, h]
      rw [ih (eraseKey repo e.1) habs]

theorem countCB_le_one (env : Env) (k : String) :
    ∀ (l : List (String × Invoice)) (repo : Repo),
      countCB k (runEntries env repo l).2.1 ≤ 1 := by
  intro l
  induction l with
  | nil => intro repo; simp [runEntries, countCB]
  | cons e rest ih =>
    intro repo
    rcases runEntry_spec env repo e with hs | hs | hs | ⟨hne, hs⟩
    · simp [runEntries_cons, hs, countCB]
    · simp only [runEntries_cons, hs]
      simp only [Bool.false_eq_true, if_false]
      rw [countCB_append, countCB_nil]
      simpa using ih repo
    · simp only [runEntries_cons, hs]
      simp only [Bool.false_eq_true, if_false]
      rw [countCB_append, countCB_deleteFail]
      simpa using ih repo
    · simp only [runEntries_cons, hs]
      simp only [Bool.false_eq_true, if_false]
      rw [countCB_append, countCB_delete_callback]
      by_cases hqk : e.1 = k
      · have habs : findVal (eraseKey repo e.1) k = none := by
          rw [findVal_eraseKey, if_pos hqk.symm]
        rw [if_pos hqk, countCB_zero_of_absent env k rest _ habs]
      · rw [if_neg hqk]
        simpa using ih (eraseKey repo e.1)

theorem callbacksGuarded_seen (k : String) :
    ∀ evs, callbacksGuarded k true evs = true := by
  intro evs
  induction evs with
  | nil => rfl
  | cons e rest ih =>
    cases e with
    | deleteOk q => simp [callbacksGuarded, ih]
    | deleteFail q => simp [callbacksGuarded, ih]
    | callback q inv => simp [callbacksGuarded, ih]

theorem callbacksGuarded_runEntries (env : Env) (k : String) :
    ∀ (l : List (String × Invoice)) (repo : Repo),
      callbacksGuarded k false (runEntries env repo l).2.1 = true := by
  intro l
  induction l with
  | nil => intro repo; rfl
  | cons e rest ih =>
    intro repo
    rcases runEntry_spec env repo e with hs | hs | hs | ⟨hne, hs⟩
    · simp [runEntries_cons, hs, callbacksGuarded]
    · simp only [runEntries_cons, hs]
      simp only [Bool.false_eq_true, if_false, List.nil_append]
      exact ih repo
    · simp only [runEntries_cons, hs]
      simp only [Bool.false_eq_true, if_false, List.cons_append,
        List.nil_append]
      rw [callbacksGuarded]
      exact ih repo
    · simp only [runEntries_cons, hs]
      simp only [Bool.false_eq_true, if_false, List.cons_append,
        List.nil_append]
      rw [callbacksGuarded, callbacksGuarded]
      by_cases hqk : e.1 = k
      · simp only [hqk, beq_self_eq_true, Bool.false_or, Bool.not_true,
          Bool.and_false, Bool.false_eq_true, if_false]
        exact callbacksGuarded_seen k _
      · have hb : (e.1 == k) = false := by
          simp [hqk]
        simp only [hb, Bool.false_or, Bool.not_false, Bool.false_and,
          Bool.false_eq_true, if_false]
        exact ih _

theorem no_callback_of_no_deleteOk (k : String) (inv : Invoice) :
    ∀ evs, callbacksGuarded k false evs = true →
      Event.deleteOk k ∉ evs → Event.callback k inv ∉ evs := by
  intro evs
  induction evs with
  | nil => intro _ _; simp
  | cons e rest ih =>
    intro hg hnd
    cases e with
    | deleteOk q =>
      have hq : (q == k) = false := by
        simp only [beq_eq_false_iff_ne, ne_eq]
        intro hqe
        exact hnd (by rw [hqe]; exact List.mem_cons_self _ _)
      rw [callbacksGuarded, hq, Bool.or_false] at hg
      intro hmem
      rcases List.mem_cons.mp hmem with habs | hmem2
      · exact Event.noConfusion habs
      · exact ih hg (fun hh => hnd (List.mem_cons_of_mem _ hh)) hmem2
    | deleteFail q =>
      rw [callbacksGuarded] at hg
      intro hmem
      rcases List.mem_cons.mp hmem with habs | hmem2
      · exact Event.noConfusion habs
      · exact ih hg (fun hh => hnd (List.mem_cons_of_mem _ hh)) hmem2
    | callback q inv2 =>
      rw [callbacksGuarded] at hg
      by_cases hq : q = k
      · simp [hq] at hg
      · have hb : (q == k && !false) = false := by
          simp [hq]
        rw [hb, if_neg (by simp)] at hg
        intro hmem
        rcases List.mem_cons.mp hmem with habs | hmem2
        · have : k = q := (Event.callback.injEq _ _ _ _).mp habs |>.1
          exact hq this.symm
        · exact ih hg (fun hh => hnd (List.mem_cons_of_mem _ hh)) hmem2

/-- Claim C1: in any reconciliation cycle the callback sink fires at most
once per invoice key; every callback is strictly preceded in the event
trace by a successful repository delete of that key; and when no delete of
the key succeeded during the cycle, no callback for it occurs — in
particular a failed delete, whether from an absent key or an engine error,
never produces a callback. -/
theorem C1_at_most_one_callback (env : Env)
    (snapshot : Except DatabaseError Repo) (repo : Repo) (k : String) :
    countCB k (runCycle env snapshot repo).2.1 ≤ 1 ∧
    callbacksGuarded k false (runCycle env snapshot repo).2.1 = true ∧
    (∀ inv, Event.deleteOk k ∉ (runCycle env snapshot repo).2.1 →
      Event.callback k inv ∉ (runCycle env snapshot repo).2.1) := by
  cases snapshot with
  | error e =>
    refine ⟨by simp [runCycle, countCB], rfl, ?_⟩
    intro inv _
    simp [runCycle]
  | ok entries =>
    refine ⟨countCB_le_one env k entries repo,
      callbacksGuarded_runEntries env k entries repo, ?_⟩
    intro inv h
    exact no_callback_of_no_deleteOk k inv _
      (callbacksGuarded_runEntries env k entries repo) h

/-- Witness for C1: a concrete funded cycle where the key inv2 sees no
successful delete and hence no callback. -/
theorem C1_at_most_one_callback_witness :
    Event.deleteOk "inv2" ∉
      (runCycle envRich (.ok [("inv1", invNative)])
        [("inv1", invNative)]).2.1 ∧
    Event.callback "inv2" invNative ∉
      (runCycle envRich (.ok [("inv1", invNative)])
        [("inv1", invNative)]).2.1 :=
  ⟨by decide,
    (C1_at_most_one_callback envRich (.ok [("inv1", invNative)])
      [("inv1", invNative)] "inv2").2.2 invNative (by decide)⟩

end AcceptEvm
